import Mathlib

/-!
Shallow embedding of `src/validator/sawtooth_validator/state/batch_tracker.py`
(the `BatchTracker` class and the `BatchFinishObserver` interface).

Python dicts are modelled as ordered association lists (insertion order, unique
keys maintained by the update operation, first-match semantics for lookup), and
Python sets as lists with membership.  The external collaborators that are not
part of `src/` — the `BlockStore` commit ledger and the `TimedCache` invalid
record store — are modelled from the spec: the ledger as a list of batch ids in
the environment (`hasBatch` is membership), the TimedCache as a plain map whose
entries may be dropped by the TTL eviction (an entry that is present is
present-and-unexpired; eviction is an environment step).

Each mutating method is a function from tracker state to a `StepResult` holding
the new state, the list of observer callback invocations made (`events`, which
record the method name that the Python code dynamically looks up on the
observer), the list of `_update_observers` emissions made (`transitions`), and
an optional Python exception.  Exceptions in Python propagate to the caller but
leave the already-performed mutations of `self` in place, so `StepResult`
carries the mutated state alongside the error.
-/

namespace BatchTrackerModel

abbrev BatchId := String
abbrev TxnId := String

/-- Status enumeration from `sawtooth_validator.protobuf.client_pb2.BatchStatus`. -/
inductive BatchStatus : Type
  | COMMITTED
  | INVALID
  | PENDING
  | UNKNOWN
deriving DecidableEq, Repr

/-- The `txn_info` dict built by `notify_txn_invalid`: key `'id'` always
present, `'message'` and `'extended_data'` present only when the corresponding
argument is not `None`. -/
structure TxnInfo : Type where
  id : TxnId
  message : Option String
  extended_data : Option (List Nat)
deriving DecidableEq, Repr

/-- A transaction, exposing its `header_signature`. -/
structure Transaction : Type where
  header_signature : TxnId
deriving DecidableEq, Repr

/-- A batch, exposing its `header_signature` and its transactions. -/
structure Batch : Type where
  header_signature : BatchId
  transactions : List Transaction
deriving DecidableEq, Repr

/-- Python dict assignment `d[k] = v`: replace the value of the first entry
with key `k` in place (dicts keep the original insertion position), or append
a new entry when `k` is absent. -/
def dictSet {α β : Type} [DecidableEq α] (d : List (α × β)) (k : α) (v : β) :
    List (α × β) :=
  match d with
  | [] => [(k, v)]
  | (k', v') :: rest =>
      if k' = k then (k, v) :: rest else (k', v') :: dictSet rest k v

/-- Python dict `d.pop(k)` (ignoring the returned value): remove the first
entry with key `k`. -/
def dictPop {α β : Type} [DecidableEq α] (d : List (α × β)) (k : α) :
    List (α × β) :=
  match d with
  | [] => []
  | (k', v') :: rest =>
      if k' = k then rest else (k', v') :: dictPop rest k

/-- Python dict lookup `d[k]` as an option. -/
def dictGet {α β : Type} [DecidableEq α] (d : List (α × β)) (k : α) : Option β :=
  match d with
  | [] => none
  | (k', v') :: rest => if k' = k then some v' else dictGet rest k

/-- Python `k in d`. -/
def dictContains {α β : Type} [DecidableEq α] (d : List (α × β)) (k : α) : Bool :=
  match d with
  | [] => false
  | (k', _) :: rest => if k' = k then true else dictContains rest k

/-- The keys of a dict are pairwise distinct (always true of a real Python
dict; maintained by `dictSet`/`dictPop` in the model). -/
def nodupKeys {α β : Type} (d : List (α × β)) : Prop :=
  (d.map Prod.fst).Nodup

instance {α β : Type} [DecidableEq α] (d : List (α × β)) :
    Decidable (nodupKeys d) := by
  unfold nodupKeys; infer_instance


/-- State of a `BatchTracker` instance together with its environment.
`pending` is `self._pending` (dict BatchID → set of txn ids), `invalid` is
`self._invalid` (the `TimedCache`, modelled from the spec as a TTL map whose
present entries are unexpired), `observers` is `self._observers` (dict
observer → statuses dict; observers are identified by opaque numbers), and
`ledger` models the external `BlockStore` commit ledger: `has_batch` is
membership in this list. -/
structure TrackerState : Type where
  ledger : List BatchId
  invalid : List (BatchId × TxnInfo)
  pending : List (BatchId × List TxnId)
  observers : List (Nat × List (BatchId × BatchStatus))
deriving DecidableEq, Repr

/-- The `BlockStore.has_batch` query (spec §4.4 `CommitLedger.hasBatch`),
modelled from the spec as membership in the environment's ledger list. -/
def has_batch (s : TrackerState) (batch_id : BatchId) : Bool :=
  s.ledger.contains batch_id

/-- A Python exception escaping a tracker method. -/
inductive PyError : Type
  | nameError (name : String)
  | keyError (message : String)
deriving DecidableEq, Repr

/-- An invocation of a method on a registered observer object.  The Python
code looks the method up dynamically by name, so the event records the name
used together with the `statuses` dict passed as argument. -/
inductive Event : Type
  | methodCall (observer : Nat) (method : String)
      (statuses : List (BatchId × BatchStatus))
deriving DecidableEq, Repr

/-- Result of one tracker method call: the state after the call (mutations of
`self` persist even if an exception escapes), the observer callbacks made, the
`_update_observers(batch_id, status)` emissions made, and the exception that
escaped, if any. -/
structure StepResult : Type where
  state : TrackerState
  events : List Event
  transitions : List (BatchId × BatchStatus)
  err : Option PyError
deriving DecidableEq, Repr

/-- `BatchTracker._has_no_pendings`: true if a statuses dict has no PENDING
values. -/
def has_no_pendings (statuses : List (BatchId × BatchStatus)) : Bool :=
  statuses.all (fun p => p.2 ≠ BatchStatus.PENDING)

/-- `BatchTracker._update_observers(batch_id, status)`: walk a snapshot of the
observers dict; for each observer whose statuses dict contains `batch_id`,
overwrite that entry with `status`; if the updated dict has no PENDING values,
call the observer's `notify_batches_finished` with it and pop the observer,
otherwise keep the observer with the updated dict. Returns the resulting
observers dict and the callback invocations, in iteration order. -/
def update_observers (observers : List (Nat × List (BatchId × BatchStatus)))
    (batch_id : BatchId) (status : BatchStatus) :
    List (Nat × List (BatchId × BatchStatus)) × List Event :=
  match observers with
  | [] => ([], [])
  | (w, statuses) :: rest =>
      if dictContains statuses batch_id then
        let statuses' := dictSet statuses batch_id status
        let r := update_observers rest batch_id status
        if has_no_pendings statuses' then
          (r.1, Event.methodCall w "notify_batches_finished" statuses' :: r.2)
        else
          ((w, statuses') :: r.1, r.2)
      else
        let r := update_observers rest batch_id status
        ((w, statuses) :: r.1, r.2)

/-- Loop body of `BatchTracker.notify_store_updated`: iterate over the
point-in-time snapshot of the pending dict; for each batch id the block store
has, pop it from the (current) pending dict and run `_update_observers` with
COMMITTED. -/
def store_updated_loop (s : TrackerState)
    (snapshot : List (BatchId × List TxnId)) : StepResult :=
  match snapshot with
  | [] => { state := s, events := [], transitions := [], err := none }
  | (batch_id, _) :: rest =>
      if has_batch s batch_id then
        let s₁ := { s with pending := dictPop s.pending batch_id }
        let uo := update_observers s₁.observers batch_id BatchStatus.COMMITTED
        let r := store_updated_loop { s₁ with observers := uo.1 } rest
        { state := r.state,
          events := uo.2 ++ r.events,
          transitions := (batch_id, BatchStatus.COMMITTED) :: r.transitions,
          err := r.err }
      else
        store_updated_loop s rest

/-- `BatchTracker.notify_store_updated`. -/
def notify_store_updated (s : TrackerState) : StepResult :=
  store_updated_loop s s.pending

/-- The `txn_info` dict built at the top of `notify_txn_invalid`. -/
def mkTxnInfo (txn_id : TxnId) (message : Option String)
    (extended_data : Option (List Nat)) : TxnInfo :=
  { id := txn_id, message := message, extended_data := extended_data }

/-- Loop body of `BatchTracker.notify_txn_invalid`: scan the snapshot of the
pending dict for the first batch whose transaction-id set contains `txn_id`;
on a match, store the invalid record keyed by that batch id, pop the batch id
from the pending dict, run `_update_observers` with INVALID and return.  With
no match the method falls off the loop and changes nothing. -/
def txn_invalid_loop (s : TrackerState) (txn_id : TxnId)
    (txn_info : TxnInfo) (snapshot : List (BatchId × List TxnId)) :
    StepResult :=
  match snapshot with
  | [] => { state := s, events := [], transitions := [], err := none }
  | (batch_id, txn_ids) :: rest =>
      if txn_id ∈ txn_ids then
        let s₁ := { s with
          invalid := dictSet s.invalid batch_id txn_info,
          pending := dictPop s.pending batch_id }
        let uo := update_observers s₁.observers batch_id BatchStatus.INVALID
        { state := { s₁ with observers := uo.1 },
          events := uo.2,
          transitions := [(batch_id, BatchStatus.INVALID)],
          err := none }
      else
        txn_invalid_loop s txn_id txn_info rest

/-- `BatchTracker.notify_txn_invalid(txn_id, message, extended_data)`. -/
def notify_txn_invalid (s : TrackerState) (txn_id : TxnId)
    (message : Option String) (extended_data : Option (List Nat)) :
    StepResult :=
  txn_invalid_loop s txn_id (mkTxnInfo txn_id message extended_data) s.pending

/-- `BatchTracker.notify_batch_pending(batch)`: store the batch's transaction
ids under its `header_signature` in the pending dict, then evaluate
`self._update_observers(batch_id, BatchStatus.PENDING)`.  The name `batch_id`
is bound neither in the method's scope nor at module level of
`batch_tracker.py`, so evaluating that argument raises `NameError` before
`_update_observers` is entered; the dict assignment has already happened and
persists. -/
def notify_batch_pending (s : TrackerState) (batch : Batch) : StepResult :=
  let txn_ids := batch.transactions.map (fun t => t.header_signature)
  let s₁ := { s with
    pending := dictSet s.pending batch.header_signature txn_ids }
  { state := s₁,
    events := [],
    transitions := [],
    err := some (PyError.nameError "batch_id") }

/-- `BatchTracker.get_status(batch_id)`. -/
def get_status (s : TrackerState) (batch_id : BatchId) : BatchStatus :=
  if has_batch s batch_id then BatchStatus.COMMITTED
  else if dictContains s.invalid batch_id then BatchStatus.INVALID
  else if dictContains s.pending batch_id then BatchStatus.PENDING
  else BatchStatus.UNKNOWN

/-- `BatchTracker.get_statuses(batch_ids)`: the dict comprehension
`\x7bb: self.get_status(b) for b in batch_ids\x7d`, built in iteration order
with later duplicates overwriting earlier ones, as a Python dict does. -/
def get_statuses (s : TrackerState) (batch_ids : List BatchId) :
    List (BatchId × BatchStatus) :=
  batch_ids.foldl (fun acc b => dictSet acc b (get_status s b)) []

/-- `BatchTracker.get_invalid_txn_info(batch_id)`: return the invalid record,
or re-raise `KeyError` with a message naming the batch id when the record
store has no (unexpired) entry. -/
def get_invalid_txn_info (s : TrackerState) (batch_id : BatchId) :
    Except String TxnInfo :=
  match dictGet s.invalid batch_id with
  | some info => Except.ok info
  | none =>
      Except.error ("Specified batch id not in invalid cache: " ++ batch_id)

/-- `BatchTracker.watch_statuses(observer, batch_ids)`: compute the statuses
dict; if it has no PENDING values, the source calls
`observer.notify_finished(statuses)` — recorded literally as a method call
with that name — otherwise register the observer with the snapshot. -/
def watch_statuses (s : TrackerState) (observer : Nat)
    (batch_ids : List BatchId) : StepResult :=
  let statuses := get_statuses s batch_ids
  if has_no_pendings statuses then
    { state := s,
      events := [Event.methodCall observer "notify_finished" statuses],
      transitions := [],
      err := none }
  else
    { state := { s with observers := dictSet s.observers observer statuses },
      events := [],
      transitions := [],
      err := none }

/-- One operation on the tracker: the three producer notifications and the
consumer queries from the source, plus two environment steps modelled from
the spec — `commitBatch` (the external `BlockStore` gains a batch, §4.4) and
`expireInvalid` (the `TimedCache` evicts an entry whose TTL elapsed, §4.3). -/
inductive Op : Type
  | storeUpdated : Op
  | txnInvalid (txn_id : TxnId) (message : Option String)
      (extended_data : Option (List Nat)) : Op
  | batchPending (batch : Batch) : Op
  | getStatusOp (batch_id : BatchId) : Op
  | getStatusesOp (batch_ids : List BatchId) : Op
  | getInvalidInfoOp (batch_id : BatchId) : Op
  | watch (observer : Nat) (batch_ids : List BatchId) : Op
  | commitBatch (batch_id : BatchId) : Op
  | expireInvalid (batch_id : BatchId) : Op
deriving DecidableEq, Repr

/-- Step function: apply one operation.  The query operations read but do not
mutate tracker state. -/
def step (s : TrackerState) (op : Op) : StepResult :=
  match op with
  | Op.storeUpdated => notify_store_updated s
  | Op.txnInvalid t m e => notify_txn_invalid s t m e
  | Op.batchPending b => notify_batch_pending s b
  | Op.getStatusOp _ =>
      { state := s, events := [], transitions := [], err := none }
  | Op.getStatusesOp _ =>
      { state := s, events := [], transitions := [], err := none }
  | Op.getInvalidInfoOp b =>
      { state := s, events := [], transitions := [],
        err := match get_invalid_txn_info s b with
               | Except.ok _ => none
               | Except.error msg => some (PyError.keyError msg) }
  | Op.watch w bids => watch_statuses s w bids
  | Op.commitBatch b =>
      { state := { s with ledger := s.ledger ++ [b] },
        events := [], transitions := [], err := none }
  | Op.expireInvalid b =>
      { state := { s with invalid := dictPop s.invalid b },
        events := [], transitions := [], err := none }

/-- Run a sequence of operations, threading the state.  An exception escaping
one call propagates to that caller, but the tracker object keeps its mutated
state and later calls (from other components) proceed. -/
def run (s : TrackerState) (ops : List Op) : TrackerState :=
  match ops with
  | [] => s
  | op :: rest => run (step s op).state rest

/-- All observer callback invocations made over a run, in order. -/
def runEvents (s : TrackerState) (ops : List Op) : List Event :=
  match ops with
  | [] => []
  | op :: rest => (step s op).events ++ runEvents (step s op).state rest

/-- The tracker's state at construction, with an empty commit ledger. -/
def initState : TrackerState :=
  { ledger := [], invalid := [], pending := [], observers := [] }

/-- Whether an operation is a `notify_batch_pending` call admitting a batch
whose id is `B`. -/
def isAdmissionOf (B : BatchId) : Op → Bool
  | Op.batchPending batch => batch.header_signature = B
  | _ => false

/-- Whether an operation is a `watch_statuses` call registering watcher `w`. -/
def isWatchOf (w : Nat) : Op → Bool
  | Op.watch w' _ => w' = w
  | _ => false

/-- Whether an event is a `notify_batches_finished` resolution callback on
watcher `w`. -/
def isFinishFor (w : Nat) : Event → Bool
  | Event.methodCall w' m _ => w' = w && m = "notify_batches_finished"

/-- Number of `notify_batches_finished` callbacks delivered to watcher `w` in
an event list. -/
def finishCount (w : Nat) (evs : List Event) : Nat :=
  evs.countP (isFinishFor w)

/-- Whether watcher `w` is currently registered in the tracker's observers
dict. -/
def registered (s : TrackerState) (w : Nat) : Bool :=
  dictContains s.observers w

/-- Well-formedness of the observers dict: every registered statuses
snapshot still has at least one PENDING entry (`watch_statuses` only
registers such snapshots, and the fan-out deregisters a watcher the moment
its snapshot loses its last PENDING entry). -/
def obsWF (obs : List (Nat × List (BatchId × BatchStatus))) : Prop :=
  ∀ p ∈ obs, has_no_pendings p.2 = false

section DictLemmas

variable {α β : Type} [DecidableEq α]

theorem dictContains_eq_isSome_dictGet (d : List (α × β)) (k : α) :
    dictContains d k = (dictGet d k).isSome := by
  induction d with
  | nil => rfl
  | cons p rest ih =>
      obtain ⟨k', v'⟩ := p
      by_cases h : k' = k <;> simp [dictContains, dictGet, h, ih]

theorem dictGet_dictSet_self (d : List (α × β)) (k : α) (v : β) :
    dictGet (dictSet d k v) k = some v := by
  induction d with
  | nil => simp [dictSet, dictGet]
  | cons p rest ih =>
      obtain ⟨k', v'⟩ := p
      by_cases h : k' = k <;> simp [dictSet, dictGet, h, ih]

theorem dictContains_iff_mem_keys (d : List (α × β)) (k : α) :
    dictContains d k = true ↔ k ∈ d.map Prod.fst := by
  induction d with
  | nil => simp [dictContains]
  | cons p rest ih =>
      obtain ⟨k₀, v₀⟩ := p
      simp only [dictContains, List.map_cons, List.mem_cons]
      by_cases hk : k₀ = k
      · simp [hk]
      · simp only [if_neg hk, ih]
        constructor
        · exact fun h => Or.inr h
        · rintro (h | h)
          · exact absurd h.symm hk
          · exact h

theorem dictGet_dictSet_ne (d : List (α × β)) (k k' : α) (v : β)
    (h : k' ≠ k) : dictGet (dictSet d k v) k' = dictGet d k' := by
  induction d with
  | nil =>
      simp only [dictSet, dictGet]
      rw [if_neg (fun hh => h hh.symm)]
  | cons p rest ih =>
      obtain ⟨k₀, v₀⟩ := p
      by_cases hk : k₀ = k
      · subst hk
        simp only [dictSet, if_pos rfl, dictGet]
        rw [if_neg (fun hh => h hh.symm), if_neg (fun hh => h hh.symm)]
      · simp only [dictSet, if_neg hk, dictGet]
        by_cases hk' : k₀ = k'
        · rw [if_pos hk', if_pos hk']
        · rw [if_neg hk', if_neg hk', ih]

theorem dictContains_dictSet_self (d : List (α × β)) (k : α)
    (v : β) : dictContains (dictSet d k v) k = true := by
  rw [dictContains_eq_isSome_dictGet, dictGet_dictSet_self]; rfl

theorem dictContains_dictSet_ne (d : List (α × β)) (k k' : α)
    (v : β) (h : k' ≠ k) :
    dictContains (dictSet d k v) k' = dictContains d k' := by
  rw [dictContains_eq_isSome_dictGet, dictContains_eq_isSome_dictGet,
    dictGet_dictSet_ne d k k' v h]

theorem dictGet_dictPop_ne (d : List (α × β)) (k k' : α)
    (h : k' ≠ k) : dictGet (dictPop d k) k' = dictGet d k' := by
  induction d with
  | nil => rfl
  | cons p rest ih =>
      obtain ⟨k₀, v₀⟩ := p
      by_cases hk : k₀ = k
      · subst hk
        have hpop : dictPop ((k₀, v₀) :: rest) k₀ = rest := by
          simp [dictPop]
        have hget : dictGet ((k₀, v₀) :: rest) k' = dictGet rest k' := by
          simp only [dictGet]
          rw [if_neg (fun hh => h hh.symm)]
        rw [hpop, hget]
      · simp only [dictPop, if_neg hk, dictGet]
        by_cases hk' : k₀ = k'
        · rw [if_pos hk', if_pos hk']
        · rw [if_neg hk', if_neg hk', ih]

theorem dictContains_dictPop_ne (d : List (α × β)) (k k' : α)
    (h : k' ≠ k) : dictContains (dictPop d k) k' = dictContains d k' := by
  rw [dictContains_eq_isSome_dictGet, dictContains_eq_isSome_dictGet,
    dictGet_dictPop_ne d k k' h]

theorem dictContains_dictPop_of_not_contains (d : List (α × β))
    (k k' : α) (h : dictContains d k' = false) :
    dictContains (dictPop d k) k' = false := by
  induction d with
  | nil => rfl
  | cons p rest ih =>
      obtain ⟨k₀, v₀⟩ := p
      simp only [dictContains] at h
      by_cases hk₀ : k₀ = k'
      · rw [if_pos hk₀] at h
        exact absurd h (by simp)
      · rw [if_neg hk₀] at h
        by_cases hk : k₀ = k
        · simpa only [dictPop, if_pos hk] using h
        · simp only [dictPop, if_neg hk, dictContains, if_neg hk₀]
          exact ih h

theorem keys_dictPop_sublist (d : List (α × β)) (k : α) :
    ((dictPop d k).map Prod.fst).Sublist (d.map Prod.fst) := by
  induction d with
  | nil => simp [dictPop]
  | cons p rest ih =>
      obtain ⟨k₀, v₀⟩ := p
      by_cases hk : k₀ = k
      · simp only [dictPop, if_pos hk, List.map_cons]
        exact List.sublist_cons_self _ _
      · simp only [dictPop, if_neg hk, List.map_cons]
        exact List.Sublist.cons₂ _ ih

theorem nodupKeys_dictPop (d : List (α × β)) (k : α)
    (h : nodupKeys d) : nodupKeys (dictPop d k) :=
  List.Nodup.sublist (keys_dictPop_sublist d k) h

theorem dictContains_dictPop_self_of_nodup (d : List (α × β))
    (k : α) (h : nodupKeys d) :
    dictContains (dictPop d k) k = false := by
  induction d with
  | nil => rfl
  | cons p rest ih =>
      obtain ⟨k₀, v₀⟩ := p
      simp only [nodupKeys, List.map_cons, List.nodup_cons] at h
      by_cases hk : k₀ = k
      · subst hk
        have hpop : dictPop ((k₀, v₀) :: rest) k₀ = rest := by
          simp [dictPop]
        rw [hpop]
        cases hc : dictContains rest k₀ with
        | false => rfl
        | true =>
            exact absurd ((dictContains_iff_mem_keys rest k₀).mp hc) h.1
      · simp only [dictPop, if_neg hk, dictContains, if_neg hk]
        exact ih h.2

theorem keys_dictSet (d : List (α × β)) (k : α) (v : β) :
    (dictSet d k v).map Prod.fst =
      if dictContains d k then d.map Prod.fst else d.map Prod.fst ++ [k] := by
  induction d with
  | nil => simp [dictSet, dictContains]
  | cons p rest ih =>
      obtain ⟨k₀, v₀⟩ := p
      by_cases hk : k₀ = k
      · subst hk
        simp [dictSet, dictContains]
      · simp only [dictSet, if_neg hk, dictContains, List.map_cons, ih]
        by_cases hc : dictContains rest k = true <;> simp [hc]

theorem nodupKeys_dictSet (d : List (α × β)) (k : α) (v : β)
    (h : nodupKeys d) : nodupKeys (dictSet d k v) := by
  unfold nodupKeys at h ⊢
  rw [keys_dictSet]
  by_cases hc : dictContains d k = true
  · simpa [hc] using h
  · rw [Bool.not_eq_true] at hc
    simp only [hc, Bool.false_eq_true, if_false, List.nodup_append,
      List.nodup_singleton]
    refine ⟨h, trivial, ?_⟩
    intro a ha hb
    simp only [List.mem_singleton] at hb
    subst hb
    exact absurd ((dictContains_iff_mem_keys d a).mpr ha) (by simp [hc])

theorem mem_dictSet (d : List (α × β)) (k : α) (v : β) (p : α × β)
    (h : p ∈ dictSet d k v) : p = (k, v) ∨ p ∈ d := by
  induction d with
  | nil => simpa [dictSet] using h
  | cons q rest ih =>
      obtain ⟨kq, vq⟩ := q
      simp only [dictSet] at h
      by_cases hk : kq = k
      · rw [if_pos hk] at h
        rcases List.mem_cons.mp h with h | h
        · exact Or.inl h
        · exact Or.inr (List.mem_cons_of_mem _ h)
      · rw [if_neg hk] at h
        rcases List.mem_cons.mp h with h | h
        · exact Or.inr (by simp [h])
        · rcases ih h with h | h
          · exact Or.inl h
          · exact Or.inr (List.mem_cons_of_mem _ h)

theorem dictGet_mem (d : List (α × β)) (k : α) (v : β)
    (h : dictGet d k = some v) : (k, v) ∈ d := by
  induction d with
  | nil => simp [dictGet] at h
  | cons q rest ih =>
      obtain ⟨kq, vq⟩ := q
      simp only [dictGet] at h
      by_cases hk : kq = k
      · rw [if_pos hk] at h
        injection h with h
        subst hk
        subst h
        exact List.mem_cons_self _ _
      · rw [if_neg hk] at h
        exact List.mem_cons_of_mem _ (ih h)

theorem dictContains_decomp (d : List (α × β)) (k : α)
    (h : dictContains d k = true) :
    ∃ pre v post, d = pre ++ (k, v) :: post ∧ k ∉ pre.map Prod.fst := by
  induction d with
  | nil => simp [dictContains] at h
  | cons q rest ih =>
      obtain ⟨kq, vq⟩ := q
      simp only [dictContains] at h
      by_cases hk : kq = k
      · subst hk
        exact ⟨[], vq, rest, rfl, by simp⟩
      · rw [if_neg hk] at h
        obtain ⟨pre, v, post, hd, hpre⟩ := ih h
        refine ⟨(kq, vq) :: pre, v, post, by rw [hd]; rfl, ?_⟩
        simp only [List.map_cons, List.mem_cons, not_or]
        exact ⟨fun hh => hk hh.symm, hpre⟩

theorem dictGet_append_of_not_mem_keys (pre : List (α × β)) (k : α) (v : β)
    (post : List (α × β)) (h : k ∉ pre.map Prod.fst) :
    dictGet (pre ++ (k, v) :: post) k = some v := by
  induction pre with
  | nil => simp [dictGet]
  | cons q rest ih =>
      obtain ⟨kq, vq⟩ := q
      simp only [List.map_cons, List.mem_cons, not_or] at h
      simp only [List.cons_append, dictGet]
      rw [if_neg (fun hh => h.1 hh.symm)]
      exact ih h.2

theorem dictSet_append_of_not_mem_keys (pre : List (α × β)) (k : α)
    (v v' : β) (post : List (α × β)) (h : k ∉ pre.map Prod.fst) :
    dictSet (pre ++ (k, v) :: post) k v' = pre ++ (k, v') :: post := by
  induction pre with
  | nil => simp [dictSet]
  | cons q rest ih =>
      obtain ⟨kq, vq⟩ := q
      simp only [List.map_cons, List.mem_cons, not_or] at h
      simp only [List.cons_append, dictSet]
      rw [if_neg (fun hh => h.1 hh.symm)]
      exact congrArg (List.cons (kq, vq)) (ih h.2)

end DictLemmas

theorem dictContains_of_dictPop {β : Type} (d : List (BatchId × β))
    (k k' : BatchId) (h : dictContains (dictPop d k) k' = true) :
    dictContains d k' = true := by
  cases hc : dictContains d k' with
  | true => rfl
  | false =>
      rw [dictContains_dictPop_of_not_contains d k k' hc] at h
      cases h

theorem dictContains_of_mem {β : Type} (d : List (BatchId × β))
    (p : BatchId × β) (h : p ∈ d) : dictContains d p.1 = true :=
  (dictContains_iff_mem_keys d p.1).mpr (List.mem_map_of_mem Prod.fst h)

theorem isAdmissionOf_eq_true (B : BatchId) :
    ∀ op : Op, isAdmissionOf B op = true →
      ∃ batch, op = Op.batchPending batch ∧ batch.header_signature = B
  | Op.batchPending batch, h => ⟨batch, rfl, of_decide_eq_true h⟩
  | Op.storeUpdated, h => by simp [isAdmissionOf] at h
  | Op.txnInvalid _ _ _, h => by simp [isAdmissionOf] at h
  | Op.getStatusOp _, h => by simp [isAdmissionOf] at h
  | Op.getStatusesOp _, h => by simp [isAdmissionOf] at h
  | Op.getInvalidInfoOp _, h => by simp [isAdmissionOf] at h
  | Op.watch _ _, h => by simp [isAdmissionOf] at h
  | Op.commitBatch _, h => by simp [isAdmissionOf] at h
  | Op.expireInvalid _, h => by simp [isAdmissionOf] at h

theorem watch_statuses_state_eq (s : TrackerState) (w : Nat)
    (bids : List BatchId) :
    (watch_statuses s w bids).state.pending = s.pending
    ∧ (watch_statuses s w bids).state.invalid = s.invalid
    ∧ (watch_statuses s w bids).state.ledger = s.ledger := by
  unfold watch_statuses
  by_cases h : has_no_pendings (get_statuses s bids) = true
  · rw [if_pos h]
    exact ⟨rfl, rfl, rfl⟩
  · rw [if_neg h]
    exact ⟨rfl, rfl, rfl⟩

theorem store_updated_loop_pending_not_contains
    (snapshot : List (BatchId × List TxnId)) (s : TrackerState) (B : BatchId)
    (hB : dictContains s.pending B = false) :
    dictContains (store_updated_loop s snapshot).state.pending B = false := by
  induction snapshot generalizing s with
  | nil => exact hB
  | cons p rest ih =>
      obtain ⟨bid, tids⟩ := p
      simp only [store_updated_loop]
      by_cases h : has_batch s bid = true
      · rw [if_pos h]
        exact ih _ (dictContains_dictPop_of_not_contains _ _ _ hB)
      · rw [if_neg h]
        exact ih _ hB

theorem store_updated_loop_pending_mono
    (snapshot : List (BatchId × List TxnId)) (s : TrackerState) (B : BatchId)
    (h : dictContains (store_updated_loop s snapshot).state.pending B = true) :
    dictContains s.pending B = true := by
  cases hp : dictContains s.pending B with
  | true => rfl
  | false =>
      rw [store_updated_loop_pending_not_contains snapshot s B hp] at h
      cases h

theorem store_updated_loop_invalid_eq
    (snapshot : List (BatchId × List TxnId)) (s : TrackerState) :
    (store_updated_loop s snapshot).state.invalid = s.invalid := by
  induction snapshot generalizing s with
  | nil => rfl
  | cons p rest ih =>
      obtain ⟨bid, tids⟩ := p
      simp only [store_updated_loop]
      by_cases h : has_batch s bid = true
      · rw [if_pos h]
        exact ih _
      · rw [if_neg h]
        exact ih _

theorem store_updated_loop_ledger_eq
    (snapshot : List (BatchId × List TxnId)) (s : TrackerState) :
    (store_updated_loop s snapshot).state.ledger = s.ledger := by
  induction snapshot generalizing s with
  | nil => rfl
  | cons p rest ih =>
      obtain ⟨bid, tids⟩ := p
      simp only [store_updated_loop]
      by_cases h : has_batch s bid = true
      · rw [if_pos h]
        exact ih _
      · rw [if_neg h]
        exact ih _

theorem store_updated_loop_pending_nodup
    (snapshot : List (BatchId × List TxnId)) (s : TrackerState)
    (hnd : nodupKeys s.pending) :
    nodupKeys (store_updated_loop s snapshot).state.pending := by
  induction snapshot generalizing s with
  | nil => exact hnd
  | cons p rest ih =>
      obtain ⟨bid, tids⟩ := p
      simp only [store_updated_loop]
      by_cases h : has_batch s bid = true
      · rw [if_pos h]
        exact ih _ (nodupKeys_dictPop _ _ hnd)
      · rw [if_neg h]
        exact ih _ hnd

theorem txn_invalid_loop_pending_not_contains (s : TrackerState) (t : TxnId)
    (info : TxnInfo) (snapshot : List (BatchId × List TxnId)) (B : BatchId)
    (hB : dictContains s.pending B = false) :
    dictContains (txn_invalid_loop s t info snapshot).state.pending B
      = false := by
  induction snapshot with
  | nil => exact hB
  | cons p rest ih =>
      obtain ⟨bid, tids⟩ := p
      simp only [txn_invalid_loop]
      by_cases h : t ∈ tids
      · rw [if_pos h]
        exact dictContains_dictPop_of_not_contains _ _ _ hB
      · rw [if_neg h]
        exact ih

theorem txn_invalid_loop_invalid_not_contains (s : TrackerState) (t : TxnId)
    (info : TxnInfo) (snapshot : List (BatchId × List TxnId)) (B : BatchId)
    (hsnap : ∀ p ∈ snapshot, p.1 ≠ B)
    (hB : dictContains s.invalid B = false) :
    dictContains (txn_invalid_loop s t info snapshot).state.invalid B
      = false := by
  induction snapshot with
  | nil => exact hB
  | cons p rest ih =>
      obtain ⟨bid, tids⟩ := p
      simp only [txn_invalid_loop]
      by_cases h : t ∈ tids
      · rw [if_pos h]
        show dictContains (dictSet s.invalid bid info) B = false
        rw [dictContains_dictSet_ne _ _ _ _
          (Ne.symm (hsnap (bid, tids) (List.mem_cons_self _ _)))]
        exact hB
      · rw [if_neg h]
        exact ih (fun p hp => hsnap p (List.mem_cons_of_mem _ hp))

theorem txn_invalid_loop_pending_nodup (s : TrackerState) (t : TxnId)
    (info : TxnInfo) (snapshot : List (BatchId × List TxnId))
    (hnd : nodupKeys s.pending) :
    nodupKeys (txn_invalid_loop s t info snapshot).state.pending := by
  induction snapshot with
  | nil => exact hnd
  | cons p rest ih =>
      obtain ⟨bid, tids⟩ := p
      simp only [txn_invalid_loop]
      by_cases h : t ∈ tids
      · rw [if_pos h]
        exact nodupKeys_dictPop _ _ hnd
      · rw [if_neg h]
        exact ih

theorem txn_invalid_loop_not_both (s : TrackerState) (t : TxnId)
    (info : TxnInfo) (snapshot : List (BatchId × List TxnId)) (B : BatchId)
    (hnd : nodupKeys s.pending)
    (h : ¬(dictContains s.pending B = true
           ∧ dictContains s.invalid B = true)) :
    ¬(dictContains (txn_invalid_loop s t info snapshot).state.pending B = true
      ∧ dictContains (txn_invalid_loop s t info snapshot).state.invalid B
          = true) := by
  induction snapshot with
  | nil => exact h
  | cons p rest ih =>
      obtain ⟨bid, tids⟩ := p
      simp only [txn_invalid_loop]
      by_cases hm : t ∈ tids
      · rw [if_pos hm]
        by_cases hbid : bid = B
        · subst hbid
          intro hc
          have hp : dictContains (dictPop s.pending bid) bid = true := hc.1
          rw [dictContains_dictPop_self_of_nodup _ _ hnd] at hp
          cases hp
        · intro hc
          have hp : dictContains (dictPop s.pending bid) B = true := hc.1
          have hi : dictContains (dictSet s.invalid bid info) B = true := hc.2
          rw [dictContains_dictPop_ne _ _ _ (Ne.symm hbid)] at hp
          rw [dictContains_dictSet_ne _ _ _ _ (Ne.symm hbid)] at hi
          exact h ⟨hp, hi⟩
      · rw [if_neg hm]
        exact ih

theorem step_pending_not_contains (s : TrackerState) (op : Op) (B : BatchId)
    (hB : dictContains s.pending B = false)
    (hop : isAdmissionOf B op = false) :
    dictContains (step s op).state.pending B = false := by
  cases op with
  | storeUpdated => exact store_updated_loop_pending_not_contains _ _ _ hB
  | txnInvalid t m e => exact txn_invalid_loop_pending_not_contains _ _ _ _ _ hB
  | batchPending batch =>
      have hne : batch.header_signature ≠ B := of_decide_eq_false hop
      show dictContains (dictSet s.pending batch.header_signature
        (batch.transactions.map (fun t => t.header_signature))) B = false
      rw [dictContains_dictSet_ne _ _ _ _ (Ne.symm hne)]
      exact hB
  | getStatusOp b => exact hB
  | getStatusesOp bs => exact hB
  | getInvalidInfoOp b => exact hB
  | watch w bids =>
      have := (watch_statuses_state_eq s w bids).1
      show dictContains (watch_statuses s w bids).state.pending B = false
      rw [this]
      exact hB
  | commitBatch b => exact hB
  | expireInvalid b => exact hB

theorem step_invalid_not_contains (s : TrackerState) (op : Op) (B : BatchId)
    (hp : dictContains s.pending B = false)
    (hi : dictContains s.invalid B = false) :
    dictContains (step s op).state.invalid B = false := by
  cases op with
  | storeUpdated =>
      show dictContains (store_updated_loop s s.pending).state.invalid B
        = false
      rw [store_updated_loop_invalid_eq]
      exact hi
  | txnInvalid t m e =>
      refine txn_invalid_loop_invalid_not_contains _ _ _ _ _ ?_ hi
      intro p hmem hcontra
      have := dictContains_of_mem s.pending p hmem
      rw [hcontra] at this
      rw [hp] at this
      cases this
  | batchPending batch => exact hi
  | getStatusOp b => exact hi
  | getStatusesOp bs => exact hi
  | getInvalidInfoOp b => exact hi
  | watch w bids =>
      have := (watch_statuses_state_eq s w bids).2.1
      show dictContains (watch_statuses s w bids).state.invalid B = false
      rw [this]
      exact hi
  | commitBatch b => exact hi
  | expireInvalid b => exact dictContains_dictPop_of_not_contains _ _ _ hi

theorem step_pending_nodup (s : TrackerState) (op : Op)
    (hnd : nodupKeys s.pending) :
    nodupKeys (step s op).state.pending := by
  cases op with
  | storeUpdated => exact store_updated_loop_pending_nodup _ _ hnd
  | txnInvalid t m e => exact txn_invalid_loop_pending_nodup _ _ _ _ hnd
  | batchPending batch => exact nodupKeys_dictSet _ _ _ hnd
  | getStatusOp b => exact hnd
  | getStatusesOp bs => exact hnd
  | getInvalidInfoOp b => exact hnd
  | watch w bids =>
      have := (watch_statuses_state_eq s w bids).1
      show nodupKeys (watch_statuses s w bids).state.pending
      rw [this]
      exact hnd
  | commitBatch b => exact hnd
  | expireInvalid b => exact hnd

theorem step_not_both (s : TrackerState) (op : Op) (B : BatchId)
    (hnd : nodupKeys s.pending)
    (hop : isAdmissionOf B op = false)
    (h : ¬(dictContains s.pending B = true
           ∧ dictContains s.invalid B = true)) :
    ¬(dictContains (step s op).state.pending B = true
      ∧ dictContains (step s op).state.invalid B = true) := by
  cases op with
  | storeUpdated =>
      intro hc
      have hi : dictContains (store_updated_loop s s.pending).state.invalid B
          = true := hc.2
      rw [store_updated_loop_invalid_eq] at hi
      exact h ⟨store_updated_loop_pending_mono _ _ _ hc.1, hi⟩
  | txnInvalid t m e => exact txn_invalid_loop_not_both _ _ _ _ _ hnd h
  | batchPending batch =>
      have hne : batch.header_signature ≠ B := of_decide_eq_false hop
      intro hc
      have hp : dictContains (dictSet s.pending batch.header_signature
          (batch.transactions.map (fun t => t.header_signature))) B
          = true := hc.1
      rw [dictContains_dictSet_ne _ _ _ _ (Ne.symm hne)] at hp
      exact h ⟨hp, hc.2⟩
  | getStatusOp b => exact h
  | getStatusesOp bs => exact h
  | getInvalidInfoOp b => exact h
  | watch w bids =>
      intro hc
      have hp : dictContains (watch_statuses s w bids).state.pending B
          = true := hc.1
      have hi : dictContains (watch_statuses s w bids).state.invalid B
          = true := hc.2
      rw [(watch_statuses_state_eq s w bids).1] at hp
      rw [(watch_statuses_state_eq s w bids).2.1] at hi
      exact h ⟨hp, hi⟩
  | commitBatch b => exact h
  | expireInvalid b =>
      intro hc
      exact h ⟨hc.1, dictContains_of_dictPop _ _ _ hc.2⟩

theorem run_not_both_aux (ops : List Op) (s : TrackerState) (B : BatchId)
    (hnd : nodupKeys s.pending)
    (h : (dictContains s.pending B = false
            ∧ dictContains s.invalid B = false
            ∧ ops.countP (isAdmissionOf B) ≤ 1)
         ∨ (¬(dictContains s.pending B = true
              ∧ dictContains s.invalid B = true)
            ∧ ops.countP (isAdmissionOf B) = 0)) :
    ¬(dictContains (run s ops).pending B = true
      ∧ dictContains (run s ops).invalid B = true) := by
  induction ops generalizing s with
  | nil =>
      rcases h with ⟨h1, _, _⟩ | ⟨h1, _⟩
      · intro hc
        have hp : dictContains s.pending B = true := hc.1
        rw [h1] at hp
        cases hp
      · exact h1
  | cons op rest ih =>
      have hnd' := step_pending_nodup s op hnd
      rcases h with ⟨h1, h2, h3⟩ | ⟨h1, h2⟩
      · by_cases hop : isAdmissionOf B op = true
        · obtain ⟨batch, rfl, hhead⟩ := isAdmissionOf_eq_true B op hop
          have hcount : rest.countP (isAdmissionOf B) = 0 := by
            rw [List.countP_cons_of_pos _ _ hop] at h3
            omega
          apply ih _ hnd'
          right
          refine ⟨?_, hcount⟩
          intro hc
          have hi : dictContains s.invalid B = true := hc.2
          rw [h2] at hi
          cases hi
        · rw [Bool.not_eq_true] at hop
          have hcount : rest.countP (isAdmissionOf B) ≤ 1 := by
            rw [List.countP_cons_of_neg _ _ (by rw [hop]; simp)] at h3
            exact h3
          apply ih _ hnd'
          left
          exact ⟨step_pending_not_contains s op B h1 hop,
            step_invalid_not_contains s op B h1 h2, hcount⟩
      · have hop : isAdmissionOf B op = false := by
          cases hq : isAdmissionOf B op with
          | false => rfl
          | true =>
              rw [List.countP_cons_of_pos _ _ hq] at h2
              omega
        have hcount : rest.countP (isAdmissionOf B) = 0 := by
          rw [List.countP_cons_of_neg _ _ (by rw [hop]; simp)] at h2
          exact h2
        apply ih _ hnd'
        right
        exact ⟨step_not_both s op B hnd hop h1, hcount⟩

/-- C1: the claim says `notify_batch_pending(B)` inserts B with its
transaction set into the pending dict and then emits a PENDING transition for
B's own identifier, completing without error.  The code performs the insert
but then evaluates the unbound name `batch_id` as the argument of
`_update_observers`, so Python raises `NameError` and no PENDING transition is
ever emitted: the code contradicts the normative behavior.  This theorem
evaluates the code at the failing input. -/
theorem c1_notify_batch_pending_name_error :
    (notify_batch_pending initState
        (Batch.mk "b1" [Transaction.mk "t1", Transaction.mk "t2"])).err
      = some (PyError.nameError "batch_id")
    ∧ (notify_batch_pending initState
        (Batch.mk "b1" [Transaction.mk "t1", Transaction.mk "t2"])).events
      = []
    ∧ (notify_batch_pending initState
        (Batch.mk "b1" [Transaction.mk "t1", Transaction.mk "t2"])).transitions
      = []
    ∧ dictGet (notify_batch_pending initState
        (Batch.mk "b1" [Transaction.mk "t1", Transaction.mk "t2"])).state.pending
        "b1"
      = some ["t1", "t2"]
    ∧ get_status (notify_batch_pending initState
        (Batch.mk "b1" [Transaction.mk "t1", Transaction.mk "t2"])).state "b1"
      = BatchStatus.PENDING := by
  decide

/-- C2: the claim says `watch_statuses` with no PENDING status synchronously
invokes the watcher's resolution callback `notify_batches_finished` before
returning.  The code instead looks up and calls a method named
`notify_finished`, which neither the `BatchFinishObserver` interface in the
same file nor `watch_statuses`'s own docstring declares, so a conforming
watcher raises `AttributeError` and never receives its statuses.  This theorem
evaluates the code at the failing input: B1 committed, B2 invalid. -/
theorem c2_watch_statuses_wrong_callback_name :
    let s : TrackerState :=
      { ledger := ["B1"],
        invalid := [("B2", { id := "t1", message := some "bad sig",
                             extended_data := none })],
        pending := [],
        observers := [] }
    let r := watch_statuses s 0 ["B1", "B2"]
    r.events = [Event.methodCall 0 "notify_finished"
        [("B1", BatchStatus.COMMITTED), ("B2", BatchStatus.INVALID)]]
    ∧ r.state.observers = []
    ∧ (r.events.all (fun e =>
        match e with
        | Event.methodCall _ m _ => m != "notify_batches_finished")) = true := by
  decide

/-- C7: `get_status` applies the fixed precedence committed (ledger) >
invalid (record store) > pending (pending set) > unknown, mutates no tracker
state, and is total: a batch id present in none of the three sources yields
UNKNOWN rather than an error. -/
theorem c7_get_status_precedence_total (s : TrackerState) (b : BatchId) :
    (has_batch s b = true → get_status s b = BatchStatus.COMMITTED)
    ∧ (has_batch s b = false → dictContains s.invalid b = true →
        get_status s b = BatchStatus.INVALID)
    ∧ (has_batch s b = false → dictContains s.invalid b = false →
        dictContains s.pending b = true →
        get_status s b = BatchStatus.PENDING)
    ∧ (has_batch s b = false → dictContains s.invalid b = false →
        dictContains s.pending b = false →
        get_status s b = BatchStatus.UNKNOWN)
    ∧ (step s (Op.getStatusOp b)).state = s
    ∧ (step s (Op.getStatusOp b)).err = none := by
  refine ⟨?_, ?_, ?_, ?_, rfl, rfl⟩
  · intro h
    simp [get_status, h]
  · intro h1 h2
    simp [get_status, h1, h2]
  · intro h1 h2 h3
    simp [get_status, h1, h2, h3]
  · intro h1 h2 h3
    simp [get_status, h1, h2, h3]

/-- Witness for C7: each of the four precedence branches at a concrete state,
obtained by applying the theorem. -/
theorem c7_witness :
    get_status
      { ledger := ["A"], invalid := [], pending := [], observers := [] }
      "A" = BatchStatus.COMMITTED
    ∧ get_status
      { ledger := [],
        invalid := [("A", { id := "t", message := none,
                            extended_data := none })],
        pending := [], observers := [] }
      "A" = BatchStatus.INVALID
    ∧ get_status
      { ledger := [], invalid := [], pending := [("A", ["t"])],
        observers := [] }
      "A" = BatchStatus.PENDING
    ∧ get_status initState "A" = BatchStatus.UNKNOWN := by
  refine ⟨?_, ?_, ?_, ?_⟩
  · exact (c7_get_status_precedence_total
      { ledger := ["A"], invalid := [], pending := [], observers := [] }
      "A").1 (by decide)
  · exact (c7_get_status_precedence_total
      { ledger := [],
        invalid := [("A", { id := "t", message := none,
                            extended_data := none })],
        pending := [], observers := [] } "A").2.1 (by decide) (by decide)
  · exact (c7_get_status_precedence_total
      { ledger := [], invalid := [], pending := [("A", ["t"])],
        observers := [] } "A").2.2.1 (by decide) (by decide) (by decide)
  · exact (c7_get_status_precedence_total initState "A").2.2.2.1
      (by decide) (by decide) (by decide)

/-- C9: `get_invalid_txn_info` returns the stored invalid record when the
batch id is present (and hence unexpired) in the record store, and otherwise
raises a `KeyError` whose message carries the batch id; it never fails when
the record is present and the query leaves the tracker state unchanged either
way. -/
theorem c9_get_invalid_txn_info_spec (s : TrackerState) (batch_id : BatchId) :
    (∀ info, dictGet s.invalid batch_id = some info →
        get_invalid_txn_info s batch_id = Except.ok info
        ∧ (step s (Op.getInvalidInfoOp batch_id)).err = none)
    ∧ (dictGet s.invalid batch_id = none →
        get_invalid_txn_info s batch_id =
          Except.error ("Specified batch id not in invalid cache: " ++ batch_id)
        ∧ (step s (Op.getInvalidInfoOp batch_id)).err =
            some (PyError.keyError
              ("Specified batch id not in invalid cache: " ++ batch_id)))
    ∧ (step s (Op.getInvalidInfoOp batch_id)).state = s
    ∧ (step s (Op.getInvalidInfoOp batch_id)).events = [] := by
  refine ⟨?_, ?_, rfl, rfl⟩
  · intro info h
    constructor
    · simp [get_invalid_txn_info, h]
    · simp [step, get_invalid_txn_info, h]
  · intro h
    constructor
    · simp [get_invalid_txn_info, h]
    · simp [step, get_invalid_txn_info, h]

/-- Witness for C9: both branches at concrete states, obtained by applying
the theorem. -/
theorem c9_witness :
    get_invalid_txn_info
      { ledger := [],
        invalid := [("B", { id := "t", message := some "why",
                            extended_data := none })],
        pending := [], observers := [] }
      "B"
      = Except.ok { id := "t", message := some "why", extended_data := none }
    ∧ get_invalid_txn_info initState "B"
      = Except.error ("Specified batch id not in invalid cache: " ++ "B") := by
  constructor
  · exact ((c9_get_invalid_txn_info_spec
      { ledger := [],
        invalid := [("B", { id := "t", message := some "why",
                            extended_data := none })],
        pending := [], observers := [] } "B").1
      { id := "t", message := some "why", extended_data := none }
      (by decide)).1
  · exact ((c9_get_invalid_txn_info_spec initState "B").2.1 (by decide)).1

/-- C10: `notify_batch_pending` mutates the pending dict before the emission
step, and the mutation is not rolled back when the emission step fails (which
it always does here, with a `NameError`): the batch stays in the pending dict,
no transition is emitted, and a subsequent `get_status` on a batch the ledger
does not hold and the invalid store does not hold returns PENDING. -/
theorem c10_pending_persists_after_emit_failure (s : TrackerState)
    (batch : Batch)
    (hl : has_batch s batch.header_signature = false)
    (hi : dictContains s.invalid batch.header_signature = false) :
    (notify_batch_pending s batch).err = some (PyError.nameError "batch_id")
    ∧ (notify_batch_pending s batch).events = []
    ∧ (notify_batch_pending s batch).transitions = []
    ∧ dictContains (notify_batch_pending s batch).state.pending
        batch.header_signature = true
    ∧ get_status (notify_batch_pending s batch).state batch.header_signature
        = BatchStatus.PENDING := by
  refine ⟨rfl, rfl, rfl, dictContains_dictSet_self _ _ _, ?_⟩
  unfold get_status
  rw [show has_batch (notify_batch_pending s batch).state
        batch.header_signature = false from hl]
  rw [show dictContains (notify_batch_pending s batch).state.invalid
        batch.header_signature = false from hi]
  rw [show dictContains (notify_batch_pending s batch).state.pending
        batch.header_signature = true from dictContains_dictSet_self _ _ _]
  simp

/-- Witness for C10: the failure-atomicity behavior at a concrete batch,
obtained by applying the theorem. -/
theorem c10_witness :
    get_status (notify_batch_pending initState
      { header_signature := "b1",
        transactions := [{ header_signature := "t1" }] }).state "b1"
      = BatchStatus.PENDING :=
  (c10_pending_persists_after_emit_failure initState
    { header_signature := "b1",
      transactions := [{ header_signature := "t1" }] }
    (by decide) (by decide)).2.2.2.2

/-- C3 counterexample: the claim as stated fails.  Starting from the empty
initial state, batch B (with transaction t) is admitted, then removed from
the pending dict by the invalidation of t; a later re-admission of B
re-inserts B into the pending dict. -/
theorem c3_readmission_reinserts :
    dictContains (run initState
      [Op.batchPending (Batch.mk "B" [Transaction.mk "t"]),
       Op.txnInvalid "t" none none]).pending "B" = false
    ∧ dictContains (run initState
      [Op.batchPending (Batch.mk "B" [Transaction.mk "t"]),
       Op.txnInvalid "t" none none,
       Op.batchPending (Batch.mk "B" [Transaction.mk "t"])]).pending "B"
        = true := by
  decide

/-- C3 (amended): once a batch id is absent from the pending dict, no
sequence of subsequent operations re-inserts it, provided none of them is a
new `notify_batch_pending` admission of that same batch id; nothing but such
a re-admission can re-insert it. -/
theorem c3_no_reinsertion_without_readmission (s : TrackerState)
    (ops : List Op) (B : BatchId)
    (hB : dictContains s.pending B = false)
    (hops : ∀ op ∈ ops, isAdmissionOf B op = false) :
    dictContains (run s ops).pending B = false := by
  induction ops generalizing s with
  | nil => exact hB
  | cons op rest ih =>
      exact ih _
        (step_pending_not_contains s op B hB
          (hops op (List.mem_cons_self op rest)))
        (fun o ho => hops o (List.mem_cons_of_mem op ho))

/-- Witness for C3 (amended): after batch B is invalidated and removed, a
run of commits, watches, sweeps, rejections and evictions never re-inserts
B; obtained by applying the theorem. -/
theorem c3_witness :
    dictContains (run (run initState
      [Op.batchPending (Batch.mk "B" [Transaction.mk "t"]),
       Op.txnInvalid "t" none none])
      [Op.commitBatch "C", Op.watch 0 ["B"], Op.storeUpdated,
       Op.txnInvalid "u" none none, Op.expireInvalid "B",
       Op.getStatusOp "B"]).pending "B" = false :=
  c3_no_reinsertion_without_readmission _ _ _ (by decide) (by decide)

/-- C4 counterexample: the claim as stated fails.  Admitting B, invalidating
its transaction t (which moves B into the invalid record store), and then
re-admitting B leaves B a key of both the pending dict and the invalid
record store at once. -/
theorem c4_readmission_breaks_disjointness :
    dictContains (run initState
      [Op.batchPending (Batch.mk "B" [Transaction.mk "t"]),
       Op.txnInvalid "t" none none,
       Op.batchPending (Batch.mk "B" [Transaction.mk "t"])]).pending "B" = true
    ∧ dictContains (run initState
      [Op.batchPending (Batch.mk "B" [Transaction.mk "t"]),
       Op.txnInvalid "t" none none,
       Op.batchPending (Batch.mk "B" [Transaction.mk "t"])]).invalid "B"
        = true := by
  decide

/-- C4 (amended): in every state reachable from the empty initial state by a
sequence of operations which admits the batch id B at most once, B is a key
of at most one of the pending dict and the invalid record store. -/
theorem c4_disjoint_when_admitted_once (ops : List Op) (B : BatchId)
    (h : ops.countP (isAdmissionOf B) ≤ 1) :
    ¬(dictContains (run initState ops).pending B = true
      ∧ dictContains (run initState ops).invalid B = true) :=
  run_not_both_aux ops initState B (by simp [initState, nodupKeys])
    (Or.inl ⟨rfl, rfl, h⟩)

/-- Witness for C4 (amended): a concrete single-admission run, obtained by
applying the theorem. -/
theorem c4_witness :
    ¬(dictContains (run initState
        [Op.batchPending (Batch.mk "B" [Transaction.mk "t"]),
         Op.txnInvalid "t" none none, Op.storeUpdated,
         Op.commitBatch "B", Op.storeUpdated]).pending "B" = true
      ∧ dictContains (run initState
        [Op.batchPending (Batch.mk "B" [Transaction.mk "t"]),
         Op.txnInvalid "t" none none, Op.storeUpdated,
         Op.commitBatch "B", Op.storeUpdated]).invalid "B" = true) :=
  c4_disjoint_when_admitted_once _ "B" (by decide)

theorem txn_invalid_loop_eq_find (s : TrackerState) (t : TxnId)
    (info : TxnInfo) (snapshot : List (BatchId × List TxnId)) :
    txn_invalid_loop s t info snapshot =
      match snapshot.find? (fun p => decide (t ∈ p.2)) with
      | none => { state := s, events := [], transitions := [], err := none }
      | some (bid, _) =>
          { state := { s with
              invalid := dictSet s.invalid bid info,
              pending := dictPop s.pending bid,
              observers :=
                (update_observers s.observers bid BatchStatus.INVALID).1 },
            events := (update_observers s.observers bid BatchStatus.INVALID).2,
            transitions := [(bid, BatchStatus.INVALID)],
            err := none } := by
  induction snapshot with
  | nil => rfl
  | cons p rest ih =>
      obtain ⟨bid, tids⟩ := p
      simp only [txn_invalid_loop]
      by_cases h : t ∈ tids
      · rw [if_pos h, List.find?_cons_of_pos _ (by simpa using h)]
      · rw [if_neg h, List.find?_cons_of_neg _ (by simpa using h)]
        exact ih

theorem dictPop_append_of_not_mem_keys {β : Type}
    (pre : List (BatchId × β)) (k : BatchId) (v : β)
    (post : List (BatchId × β)) (h : k ∉ pre.map Prod.fst) :
    dictPop (pre ++ (k, v) :: post) k = pre ++ post := by
  induction pre with
  | nil => simp [dictPop]
  | cons q rest ih =>
      obtain ⟨kq, vq⟩ := q
      simp only [List.map_cons, List.mem_cons, not_or] at h
      simp only [List.cons_append, dictPop]
      rw [if_neg (fun hh => h.1 hh.symm)]
      exact congrArg (List.cons (kq, vq)) (ih h.2)

theorem store_updated_loop_characterization
    (snapshot : List (BatchId × List TxnId)) (s : TrackerState)
    (pre : List (BatchId × List TxnId))
    (hpend : s.pending = pre ++ snapshot)
    (hnd : nodupKeys (pre ++ snapshot)) :
    (store_updated_loop s snapshot).state.pending
        = pre ++ snapshot.filter (fun p => !(has_batch s p.1))
    ∧ (store_updated_loop s snapshot).transitions
        = (snapshot.filter (fun p => has_batch s p.1)).map
            (fun p => (p.1, BatchStatus.COMMITTED))
    ∧ (store_updated_loop s snapshot).err = none := by
  induction snapshot generalizing s pre with
  | nil =>
      refine ⟨?_, rfl, rfl⟩
      show s.pending = pre ++ List.filter (fun p => !(has_batch s p.1)) []
      rw [hpend]
      simp
  | cons p rest ih =>
      obtain ⟨bid, tids⟩ := p
      simp only [store_updated_loop]
      by_cases h : has_batch s bid = true
      · rw [if_pos h]
        have hbid_pre : bid ∉ pre.map Prod.fst := by
          have hkeys : ((pre ++ (bid, tids) :: rest).map Prod.fst).Nodup := hnd
          rw [List.map_append, List.map_cons] at hkeys
          intro hmem
          exact (List.disjoint_of_nodup_append hkeys) hmem
            (List.mem_cons_self _ _)
        have hpop : dictPop s.pending bid = pre ++ rest := by
          rw [hpend]
          exact dictPop_append_of_not_mem_keys _ _ _ _ hbid_pre
        have hnd' : nodupKeys (pre ++ rest) := by
          refine List.Nodup.sublist ?_ hnd
          refine List.Sublist.map Prod.fst ?_
          exact List.Sublist.append_left (List.sublist_cons_self _ _) pre
        have ihh := ih
          { s with
            pending := dictPop s.pending bid,
            observers := (update_observers
              { s with pending := dictPop s.pending bid }.observers bid
              BatchStatus.COMMITTED).1 }
          pre hpop hnd'
        rw [List.filter_cons_of_neg (by simp [h]),
          List.filter_cons_of_pos (by simp [h]), List.map_cons]
        refine ⟨ihh.1, ?_, ihh.2.2⟩
        exact congrArg (List.cons (bid, BatchStatus.COMMITTED)) ihh.2.1
      · rw [if_neg h]
        have hb : has_batch s bid = false := by
          cases hq : has_batch s bid with
          | true => exact absurd hq h
          | false => rfl
        have hpend' : s.pending = (pre ++ [(bid, tids)]) ++ rest := by
          rw [hpend, List.append_assoc]
          rfl
        have hnd' : nodupKeys ((pre ++ [(bid, tids)]) ++ rest) := by
          rw [List.append_assoc]
          exact hnd
        have ihh := ih s (pre ++ [(bid, tids)]) hpend' hnd'
        rw [List.filter_cons_of_pos (by simp [hb]),
          List.filter_cons_of_neg (by simp [hb])]
        refine ⟨?_, ihh.2.1, ihh.2.2⟩
        rw [ihh.1, List.append_assoc]
        rfl

/-- C5: `notify_txn_invalid(t, msg, ed)` acts on exactly the first pending
batch whose transaction set contains t — it stores the invalid record
(t plus message and extended data) keyed by that batch id, removes that batch
id from the pending dict (and no other entry of either map), emits an INVALID
transition for it and runs the observer fan-out — and is a no-op when no
pending batch contains t. -/
theorem c5_txn_invalid_first_match (s : TrackerState) (t : TxnId)
    (msg : Option String) (ed : Option (List Nat))
    (hnd : nodupKeys s.pending) :
    (∀ bid tids,
      s.pending.find? (fun p => decide (t ∈ p.2)) = some (bid, tids) →
        dictGet (notify_txn_invalid s t msg ed).state.invalid bid
          = some (mkTxnInfo t msg ed)
        ∧ dictContains (notify_txn_invalid s t msg ed).state.pending bid
          = false
        ∧ (notify_txn_invalid s t msg ed).transitions
          = [(bid, BatchStatus.INVALID)]
        ∧ (notify_txn_invalid s t msg ed).state.observers
          = (update_observers s.observers bid BatchStatus.INVALID).1
        ∧ (notify_txn_invalid s t msg ed).events
          = (update_observers s.observers bid BatchStatus.INVALID).2
        ∧ (∀ b, b ≠ bid →
            dictGet (notify_txn_invalid s t msg ed).state.pending b
              = dictGet s.pending b
            ∧ dictGet (notify_txn_invalid s t msg ed).state.invalid b
              = dictGet s.invalid b)
        ∧ (notify_txn_invalid s t msg ed).err = none)
    ∧ (s.pending.find? (fun p => decide (t ∈ p.2)) = none →
        notify_txn_invalid s t msg ed
          = { state := s, events := [], transitions := [], err := none }) := by
  constructor
  · intro bid tids hfind
    have hloop := txn_invalid_loop_eq_find s t (mkTxnInfo t msg ed) s.pending
    rw [hfind] at hloop
    show _ ∧ _
    unfold notify_txn_invalid
    rw [hloop]
    refine ⟨dictGet_dictSet_self _ _ _,
      dictContains_dictPop_self_of_nodup _ _ hnd, rfl, rfl, rfl, ?_, rfl⟩
    intro b hb
    exact ⟨dictGet_dictPop_ne _ _ _ hb, dictGet_dictSet_ne _ _ _ _ hb⟩
  · intro hfind
    have hloop := txn_invalid_loop_eq_find s t (mkTxnInfo t msg ed) s.pending
    rw [hfind] at hloop
    exact hloop

/-- Witness for C5: with pending batches A (txn x) and B (txn t), rejecting t
hits exactly B, and rejecting an unknown txn z is a no-op; obtained by
applying the theorem at both branches. -/
theorem c5_witness :
    dictGet (notify_txn_invalid
      { ledger := [], invalid := [],
        pending := [("A", ["x"]), ("B", ["t"])], observers := [] }
      "t" (some "bad sig") none).state.invalid "B"
      = some (mkTxnInfo "t" (some "bad sig") none)
    ∧ notify_txn_invalid
      { ledger := [], invalid := [],
        pending := [("A", ["x"]), ("B", ["t"])], observers := [] }
      "z" none none
      = { state :=
            { ledger := [], invalid := [],
              pending := [("A", ["x"]), ("B", ["t"])], observers := [] },
          events := [], transitions := [], err := none } := by
  constructor
  · exact ((c5_txn_invalid_first_match
      { ledger := [], invalid := [],
        pending := [("A", ["x"]), ("B", ["t"])], observers := [] }
      "t" (some "bad sig") none (by decide)).1 "B" ["t"] (by decide)).1
  · exact (c5_txn_invalid_first_match
      { ledger := [], invalid := [],
        pending := [("A", ["x"]), ("B", ["t"])], observers := [] }
      "z" none none (by decide)).2 (by decide)

/-- C8: `notify_store_updated` removes from the pending dict exactly those
batches the block store reports present, emitting a COMMITTED transition for
each removed batch in pending order; every pending batch the ledger does not
contain remains, in order, with its transaction set unchanged; the invalid
store and ledger are untouched; and any batch the ledger holds subsequently
reads back as COMMITTED. -/
theorem c8_store_updated_commits_ledger_batches (s : TrackerState)
    (hnd : nodupKeys s.pending) :
    (notify_store_updated s).state.pending
        = s.pending.filter (fun p => !(has_batch s p.1))
    ∧ (notify_store_updated s).transitions
        = (s.pending.filter (fun p => has_batch s p.1)).map
            (fun p => (p.1, BatchStatus.COMMITTED))
    ∧ (notify_store_updated s).state.invalid = s.invalid
    ∧ (notify_store_updated s).state.ledger = s.ledger
    ∧ (∀ b, has_batch s b = true →
        get_status (notify_store_updated s).state b = BatchStatus.COMMITTED)
    ∧ (notify_store_updated s).err = none := by
  have hc := store_updated_loop_characterization s.pending s [] rfl hnd
  refine ⟨hc.1, hc.2.1, store_updated_loop_invalid_eq _ _,
    store_updated_loop_ledger_eq _ _, ?_, hc.2.2⟩
  intro b hb
  have hl : has_batch (notify_store_updated s).state b = true := by
    unfold has_batch
    rw [show (notify_store_updated s).state.ledger = s.ledger from
      store_updated_loop_ledger_eq _ _]
    exact hb
  unfold get_status
  simp [hl]

/-- Witness for C8: pending A and B with B committed in the ledger; the sweep
removes B, keeps A unchanged and emits one COMMITTED transition; obtained by
applying the theorem. -/
theorem c8_witness :
    let s : TrackerState :=
      { ledger := ["B"], invalid := [],
        pending := [("A", ["x"]), ("B", ["t"])], observers := [] }
    (notify_store_updated s).state.pending
        = s.pending.filter (fun p => !(has_batch s p.1))
    ∧ (notify_store_updated s).transitions
        = (s.pending.filter (fun p => has_batch s p.1)).map
            (fun p => (p.1, BatchStatus.COMMITTED)) := by
  exact ⟨(c8_store_updated_commits_ledger_batches _ (by decide)).1,
    (c8_store_updated_commits_ledger_batches _ (by decide)).2.1⟩

theorem has_no_pendings_iff (l : List (BatchId × BatchStatus)) :
    has_no_pendings l = true ↔ ∀ p ∈ l, p.2 ≠ BatchStatus.PENDING := by
  simp [has_no_pendings, List.all_eq_true]

theorem has_no_pendings_eq_false (l : List (BatchId × BatchStatus)) :
    has_no_pendings l = false ↔ ∃ p ∈ l, p.2 = BatchStatus.PENDING := by
  rw [← Bool.not_eq_true, has_no_pendings_iff]
  push_neg
  rfl

theorem finishCount_cons (w : Nat) (e : Event) (evs : List Event) :
    finishCount w (e :: evs)
      = finishCount w evs + (if isFinishFor w e = true then 1 else 0) := by
  simp [finishCount, List.countP_cons]

theorem finishCount_append (w : Nat) (l₁ l₂ : List Event) :
    finishCount w (l₁ ++ l₂) = finishCount w l₁ + finishCount w l₂ := by
  simp [finishCount, List.countP_append]

theorem isFinishFor_ne_observer (w w₀ : Nat) (h : w₀ ≠ w) (m : String)
    (sts : List (BatchId × BatchStatus)) :
    isFinishFor w (Event.methodCall w₀ m sts) = false := by
  simp [isFinishFor, h]

theorem isFinishFor_self (w : Nat) (sts : List (BatchId × BatchStatus)) :
    isFinishFor w (Event.methodCall w "notify_batches_finished" sts)
      = true := by
  simp [isFinishFor]

theorem isFinishFor_notify_finished (w w₀ : Nat)
    (sts : List (BatchId × BatchStatus)) :
    isFinishFor w (Event.methodCall w₀ "notify_finished" sts) = false := by
  simp [isFinishFor]

theorem update_observers_cons (w₀ : Nat)
    (sts : List (BatchId × BatchStatus))
    (rest : List (Nat × List (BatchId × BatchStatus)))
    (bid : BatchId) (st : BatchStatus) :
    update_observers ((w₀, sts) :: rest) bid st =
      if dictContains sts bid then
        if has_no_pendings (dictSet sts bid st) then
          ((update_observers rest bid st).1,
           Event.methodCall w₀ "notify_batches_finished" (dictSet sts bid st)
             :: (update_observers rest bid st).2)
        else
          ((w₀, dictSet sts bid st) :: (update_observers rest bid st).1,
           (update_observers rest bid st).2)
      else
        ((w₀, sts) :: (update_observers rest bid st).1,
         (update_observers rest bid st).2) := by
  simp only [update_observers]

theorem update_observers_keys_sublist
    (obs : List (Nat × List (BatchId × BatchStatus))) (bid : BatchId)
    (st : BatchStatus) :
    ((update_observers obs bid st).1.map Prod.fst).Sublist
      (obs.map Prod.fst) := by
  induction obs with
  | nil => simp [update_observers]
  | cons p rest ih =>
      obtain ⟨w₀, sts⟩ := p
      rw [update_observers_cons]
      by_cases h1 : dictContains sts bid = true
      · by_cases h2 : has_no_pendings (dictSet sts bid st) = true
        · rw [if_pos h1, if_pos h2]
          exact ih.trans (List.sublist_cons_self _ _)
        · rw [if_pos h1, if_neg h2]
          simpa using List.Sublist.cons₂ w₀ ih
      · rw [if_neg h1]
        simpa using List.Sublist.cons₂ w₀ ih

theorem update_observers_not_registered
    (obs : List (Nat × List (BatchId × BatchStatus))) (bid : BatchId)
    (st : BatchStatus) (w : Nat) (h : dictContains obs w = false) :
    finishCount w (update_observers obs bid st).2 = 0
    ∧ dictContains (update_observers obs bid st).1 w = false := by
  induction obs with
  | nil => exact ⟨rfl, rfl⟩
  | cons p rest ih =>
      obtain ⟨w₀, sts⟩ := p
      simp only [dictContains] at h
      by_cases hww : w₀ = w
      · rw [if_pos hww] at h
        cases h
      · rw [if_neg hww] at h
        obtain ⟨ih1, ih2⟩ := ih h
        rw [update_observers_cons]
        by_cases h1 : dictContains sts bid = true
        · by_cases h2 : has_no_pendings (dictSet sts bid st) = true
          · rw [if_pos h1, if_pos h2]
            refine ⟨?_, ih2⟩
            rw [finishCount_cons, isFinishFor_ne_observer w w₀ hww, ih1]
            simp
          · rw [if_pos h1, if_neg h2]
            refine ⟨ih1, ?_⟩
            simp only [dictContains, if_neg hww]
            exact ih2
        · rw [if_neg h1]
          refine ⟨ih1, ?_⟩
          simp only [dictContains, if_neg hww]
          exact ih2

theorem last_pending_entry (snap : List (BatchId × BatchStatus))
    (bid : BatchId) (st : BatchStatus)
    (hc : dictContains snap bid = true)
    (hbefore : has_no_pendings snap = false)
    (hafter : has_no_pendings (dictSet snap bid st) = true) :
    dictGet snap bid = some BatchStatus.PENDING
    ∧ (∀ b stx, dictGet snap b = some stx →
        stx = BatchStatus.PENDING → b = bid) := by
  obtain ⟨pre, v, post, hd, hpre⟩ := dictContains_decomp snap bid hc
  have hset : dictSet snap bid st = pre ++ (bid, st) :: post := by
    rw [hd]
    exact dictSet_append_of_not_mem_keys pre bid v st post hpre
  have hnp := (has_no_pendings_iff _).mp hafter
  rw [hset] at hnp
  have hprepost : ∀ p : BatchId × BatchStatus,
      p ∈ pre ∨ p ∈ post → p.2 ≠ BatchStatus.PENDING := by
    intro p hp
    rcases hp with hp | hp
    · exact hnp p (List.mem_append_left _ hp)
    · exact hnp p (List.mem_append_right _ (List.mem_cons_of_mem _ hp))
  have hv : v = BatchStatus.PENDING := by
    obtain ⟨p, hpmem, hppend⟩ := (has_no_pendings_eq_false _).mp hbefore
    rw [hd] at hpmem
    rcases List.mem_append.mp hpmem with hp | hp
    · exact absurd hppend (hprepost p (Or.inl hp))
    · rcases List.mem_cons.mp hp with hp | hp
      · rw [hp] at hppend
        exact hppend
      · exact absurd hppend (hprepost p (Or.inr hp))
  subst hv
  constructor
  · rw [hd]
    exact dictGet_append_of_not_mem_keys pre bid BatchStatus.PENDING post hpre
  · intro b stx hget hpend
    have hmem := dictGet_mem snap b stx hget
    rw [hd] at hmem
    rcases List.mem_append.mp hmem with hp | hp
    · exact absurd hpend (hprepost (b, stx) (Or.inl hp))
    · rcases List.mem_cons.mp hp with hp | hp
      · exact congrArg Prod.fst hp
      · exact absurd hpend (hprepost (b, stx) (Or.inr hp))

theorem update_observers_finish_bound
    (obs : List (Nat × List (BatchId × BatchStatus))) (bid : BatchId)
    (st : BatchStatus) (w : Nat) (hnd : (obs.map Prod.fst).Nodup) :
    finishCount w (update_observers obs bid st).2
      + (if dictContains (update_observers obs bid st).1 w = true
          then 1 else 0)
      ≤ (if dictContains obs w = true then 1 else 0) := by
  induction obs with
  | nil => simp [update_observers, finishCount, dictContains]
  | cons p rest ih =>
      obtain ⟨w₀, sts⟩ := p
      simp only [List.map_cons, List.nodup_cons] at hnd
      rw [update_observers_cons]
      by_cases hww : w₀ = w
      · subst hww
        have hrest : dictContains rest w₀ = false := by
          cases hq : dictContains rest w₀ with
          | false => rfl
          | true => exact absurd ((dictContains_iff_mem_keys _ _).mp hq) hnd.1
        obtain ⟨hr1, hr2⟩ := update_observers_not_registered rest bid st w₀
          hrest
        have hobs : dictContains ((w₀, sts) :: rest) w₀ = true := by
          simp [dictContains]
        rw [hobs]
        by_cases h1 : dictContains sts bid = true
        · by_cases h2 : has_no_pendings (dictSet sts bid st) = true
          · rw [if_pos h1, if_pos h2]
            rw [finishCount_cons, isFinishFor_self, hr1, hr2]
            simp
          · rw [if_pos h1, if_neg h2]
            have hcon : dictContains
                ((w₀, dictSet sts bid st)
                  :: (update_observers rest bid st).1) w₀ = true := by
              simp [dictContains]
            rw [hcon, hr1]
            simp
        · rw [if_neg h1]
          have hcon : dictContains
              ((w₀, sts) :: (update_observers rest bid st).1) w₀ = true := by
            simp [dictContains]
          rw [hcon, hr1]
          simp
      · have hobs : dictContains ((w₀, sts) :: rest) w
            = dictContains rest w := by
          simp [dictContains, hww]
        specialize ih hnd.2
        rw [hobs]
        by_cases h1 : dictContains sts bid = true
        · by_cases h2 : has_no_pendings (dictSet sts bid st) = true
          · rw [if_pos h1, if_pos h2]
            rw [finishCount_cons, isFinishFor_ne_observer w w₀ hww]
            simpa using ih
          · rw [if_pos h1, if_neg h2]
            have hcon : dictContains
                ((w₀, dictSet sts bid st)
                  :: (update_observers rest bid st).1) w
                = dictContains (update_observers rest bid st).1 w := by
              simp [dictContains, hww]
            rw [hcon]
            exact ih
        · rw [if_neg h1]
          have hcon : dictContains
              ((w₀, sts) :: (update_observers rest bid st).1) w
              = dictContains (update_observers rest bid st).1 w := by
            simp [dictContains, hww]
          rw [hcon]
          exact ih

theorem update_observers_obsWF
    (obs : List (Nat × List (BatchId × BatchStatus))) (bid : BatchId)
    (st : BatchStatus) (h : obsWF obs) :
    obsWF (update_observers obs bid st).1 := by
  induction obs with
  | nil => intro p hp; simp [update_observers] at hp
  | cons q rest ih =>
      obtain ⟨w₀, sts⟩ := q
      have hrest : obsWF rest := fun p hp => h p (List.mem_cons_of_mem _ hp)
      rw [update_observers_cons]
      by_cases h1 : dictContains sts bid = true
      · by_cases h2 : has_no_pendings (dictSet sts bid st) = true
        · rw [if_pos h1, if_pos h2]
          exact ih hrest
        · rw [if_pos h1, if_neg h2]
          intro p hp
          rcases List.mem_cons.mp hp with hp | hp
          · rw [hp]
            exact Bool.not_eq_true _ |>.mp h2
          · exact ih hrest p hp
      · rw [if_neg h1]
        intro p hp
        rcases List.mem_cons.mp hp with hp | hp
        · rw [hp]
          exact h (w₀, sts) (List.mem_cons_self _ _)
        · exact ih hrest p hp

theorem update_observers_finish_chars
    (obs : List (Nat × List (BatchId × BatchStatus))) (bid : BatchId)
    (st : BatchStatus) (w : Nat) (hnd : (obs.map Prod.fst).Nodup)
    (hfc : 0 < finishCount w (update_observers obs bid st).2) :
    dictContains (update_observers obs bid st).1 w = false
    ∧ ∃ snap, dictGet obs w = some snap
        ∧ dictContains snap bid = true
        ∧ has_no_pendings (dictSet snap bid st) = true := by
  induction obs with
  | nil => simp [update_observers, finishCount] at hfc
  | cons q rest ih =>
      obtain ⟨w₀, sts⟩ := q
      simp only [List.map_cons, List.nodup_cons] at hnd
      rw [update_observers_cons] at hfc ⊢
      by_cases hww : w₀ = w
      · subst hww
        have hrest : dictContains rest w₀ = false := by
          cases hq : dictContains rest w₀ with
          | false => rfl
          | true => exact absurd ((dictContains_iff_mem_keys _ _).mp hq) hnd.1
        obtain ⟨hr1, hr2⟩ := update_observers_not_registered rest bid st w₀
          hrest
        by_cases h1 : dictContains sts bid = true
        · by_cases h2 : has_no_pendings (dictSet sts bid st) = true
          · rw [if_pos h1, if_pos h2]
            refine ⟨hr2, sts, ?_, h1, h2⟩
            simp [dictGet]
          · rw [if_pos h1, if_neg h2] at hfc
            rw [hr1] at hfc
            exact absurd hfc (by simp)
        · rw [if_neg h1] at hfc
          rw [hr1] at hfc
          exact absurd hfc (by simp)
      · have hget : dictGet ((w₀, sts) :: rest) w = dictGet rest w := by
          simp [dictGet, hww]
        by_cases h1 : dictContains sts bid = true
        · by_cases h2 : has_no_pendings (dictSet sts bid st) = true
          · rw [if_pos h1, if_pos h2] at hfc ⊢
            rw [finishCount_cons, isFinishFor_ne_observer w w₀ hww] at hfc
            have hfc' : 0 < finishCount w (update_observers rest bid st).2 := by
              simpa using hfc
            obtain ⟨ha, snap, hb, hc, hd⟩ := ih hnd.2 hfc'
            exact ⟨ha, snap, by rw [hget]; exact hb, hc, hd⟩
          · rw [if_pos h1, if_neg h2] at hfc ⊢
            obtain ⟨ha, snap, hb, hc, hd⟩ := ih hnd.2 hfc
            refine ⟨?_, snap, by rw [hget]; exact hb, hc, hd⟩
            simp only [dictContains, if_neg hww]
            exact ha
        · rw [if_neg h1] at hfc ⊢
          obtain ⟨ha, snap, hb, hc, hd⟩ := ih hnd.2 hfc
          refine ⟨?_, snap, by rw [hget]; exact hb, hc, hd⟩
          simp only [dictContains, if_neg hww]
          exact ha

theorem update_observers_finish_exact
    (obs : List (Nat × List (BatchId × BatchStatus))) (bid : BatchId)
    (st : BatchStatus) (w : Nat)
    (snap : List (BatchId × BatchStatus))
    (hWF : obsWF obs) (hnd : (obs.map Prod.fst).Nodup)
    (hget : dictGet obs w = some snap)
    (hfc : 0 < finishCount w (update_observers obs bid st).2) :
    dictGet snap bid = some BatchStatus.PENDING
    ∧ (∀ b stx, dictGet snap b = some stx →
        stx = BatchStatus.PENDING → b = bid) := by
  induction obs with
  | nil => simp [dictGet] at hget
  | cons q rest ih =>
      obtain ⟨w₀, sts⟩ := q
      simp only [List.map_cons, List.nodup_cons] at hnd
      rw [update_observers_cons] at hfc
      by_cases hww : w₀ = w
      · subst hww
        have hsnap : sts = snap := by
          simp only [dictGet, if_pos rfl] at hget
          injection hget
        subst hsnap
        have hrest : dictContains rest w₀ = false := by
          cases hq : dictContains rest w₀ with
          | false => rfl
          | true => exact absurd ((dictContains_iff_mem_keys _ _).mp hq) hnd.1
        obtain ⟨hr1, hr2⟩ := update_observers_not_registered rest bid st w₀
          hrest
        by_cases h1 : dictContains sts bid = true
        · by_cases h2 : has_no_pendings (dictSet sts bid st) = true
          · have hbefore : has_no_pendings sts = false :=
              hWF (w₀, sts) (List.mem_cons_self _ _)
            exact last_pending_entry sts bid st h1 hbefore h2
          · rw [if_pos h1, if_neg h2] at hfc
            rw [hr1] at hfc
            exact absurd hfc (by simp)
        · rw [if_neg h1] at hfc
          rw [hr1] at hfc
          exact absurd hfc (by simp)
      · have hget' : dictGet rest w = some snap := by
          simp only [dictGet, if_neg hww] at hget
          exact hget
        have hWF' : obsWF rest := fun p hp => hWF p (List.mem_cons_of_mem _ hp)
        have hfc' : 0 < finishCount w (update_observers rest bid st).2 := by
          by_cases h1 : dictContains sts bid = true
          · by_cases h2 : has_no_pendings (dictSet sts bid st) = true
            · rw [if_pos h1, if_pos h2] at hfc
              rw [finishCount_cons, isFinishFor_ne_observer w w₀ hww] at hfc
              simpa using hfc
            · rw [if_pos h1, if_neg h2] at hfc
              exact hfc
          · rw [if_neg h1] at hfc
            exact hfc
        exact ih hWF' hnd.2 hget' hfc'

theorem store_updated_loop_observers_nodup
    (snapshot : List (BatchId × List TxnId)) (s : TrackerState)
    (hnd : nodupKeys s.observers) :
    nodupKeys (store_updated_loop s snapshot).state.observers := by
  induction snapshot generalizing s with
  | nil => exact hnd
  | cons p rest ih =>
      obtain ⟨bid, tids⟩ := p
      simp only [store_updated_loop]
      by_cases h : has_batch s bid = true
      · rw [if_pos h]
        exact ih _
          (List.Nodup.sublist (update_observers_keys_sublist _ _ _) hnd)
      · rw [if_neg h]
        exact ih _ hnd

theorem store_updated_loop_obsWF
    (snapshot : List (BatchId × List TxnId)) (s : TrackerState)
    (h : obsWF s.observers) :
    obsWF (store_updated_loop s snapshot).state.observers := by
  induction snapshot generalizing s with
  | nil => exact h
  | cons p rest ih =>
      obtain ⟨bid, tids⟩ := p
      simp only [store_updated_loop]
      by_cases hb : has_batch s bid = true
      · rw [if_pos hb]
        exact ih _ (update_observers_obsWF _ _ _ h)
      · rw [if_neg hb]
        exact ih _ h

theorem store_updated_loop_finish_bound
    (snapshot : List (BatchId × List TxnId)) (s : TrackerState) (w : Nat)
    (hnd : nodupKeys s.observers) :
    finishCount w (store_updated_loop s snapshot).events
      + (if dictContains (store_updated_loop s snapshot).state.observers w
            = true then 1 else 0)
      ≤ (if dictContains s.observers w = true then 1 else 0) := by
  induction snapshot generalizing s with
  | nil => simp [store_updated_loop, finishCount]
  | cons p rest ih =>
      obtain ⟨bid, tids⟩ := p
      simp only [store_updated_loop]
      by_cases h : has_batch s bid = true
      · rw [if_pos h]
        have h1 := update_observers_finish_bound s.observers bid
          BatchStatus.COMMITTED w hnd
        have hnd' : ((update_observers s.observers bid
            BatchStatus.COMMITTED).1.map Prod.fst).Nodup :=
          List.Nodup.sublist (update_observers_keys_sublist _ _ _) hnd
        have h2 := ih
          { ledger := s.ledger, invalid := s.invalid,
            pending := dictPop s.pending bid,
            observers := (update_observers s.observers bid
              BatchStatus.COMMITTED).1 } hnd'
        dsimp only
        dsimp only at h2
        rw [finishCount_append]
        omega
      · rw [if_neg h]
        exact ih _ hnd

theorem notify_txn_invalid_found (s : TrackerState) (t : TxnId)
    (m : Option String) (e : Option (List Nat)) (bid : BatchId)
    (tids : List TxnId)
    (hf : s.pending.find? (fun p => decide (t ∈ p.2)) = some (bid, tids)) :
    notify_txn_invalid s t m e =
      { state := { s with
          invalid := dictSet s.invalid bid (mkTxnInfo t m e),
          pending := dictPop s.pending bid,
          observers :=
            (update_observers s.observers bid BatchStatus.INVALID).1 },
        events := (update_observers s.observers bid BatchStatus.INVALID).2,
        transitions := [(bid, BatchStatus.INVALID)],
        err := none } := by
  have hchar := txn_invalid_loop_eq_find s t (mkTxnInfo t m e) s.pending
  rw [hf] at hchar
  exact hchar

theorem notify_txn_invalid_not_found (s : TrackerState) (t : TxnId)
    (m : Option String) (e : Option (List Nat))
    (hf : s.pending.find? (fun p => decide (t ∈ p.2)) = none) :
    notify_txn_invalid s t m e =
      { state := s, events := [], transitions := [], err := none } := by
  have hchar := txn_invalid_loop_eq_find s t (mkTxnInfo t m e) s.pending
  rw [hf] at hchar
  exact hchar

theorem watch_statuses_observers_cases (s : TrackerState) (w' : Nat)
    (bids : List BatchId) :
    ((watch_statuses s w' bids).state.observers = s.observers
      ∧ (watch_statuses s w' bids).events
        = [Event.methodCall w' "notify_finished" (get_statuses s bids)])
    ∨ ((watch_statuses s w' bids).state.observers
        = dictSet s.observers w' (get_statuses s bids)
      ∧ (watch_statuses s w' bids).events = []
      ∧ has_no_pendings (get_statuses s bids) = false) := by
  unfold watch_statuses
  by_cases h : has_no_pendings (get_statuses s bids) = true
  · rw [if_pos h]
    exact Or.inl ⟨rfl, rfl⟩
  · rw [if_neg h]
    exact Or.inr ⟨rfl, rfl, Bool.not_eq_true _ |>.mp h⟩

theorem step_observers_nodup (s : TrackerState) (op : Op)
    (hnd : nodupKeys s.observers) :
    nodupKeys (step s op).state.observers := by
  cases op with
  | storeUpdated => exact store_updated_loop_observers_nodup _ _ hnd
  | txnInvalid t m e =>
      cases hf : s.pending.find? (fun p => decide (t ∈ p.2)) with
      | none =>
          show nodupKeys (notify_txn_invalid s t m e).state.observers
          rw [notify_txn_invalid_not_found s t m e hf]
          exact hnd
      | some p =>
          obtain ⟨bid, tids⟩ := p
          show nodupKeys (notify_txn_invalid s t m e).state.observers
          rw [notify_txn_invalid_found s t m e bid tids hf]
          exact List.Nodup.sublist (update_observers_keys_sublist _ _ _) hnd
  | batchPending batch => exact hnd
  | getStatusOp b => exact hnd
  | getStatusesOp bs => exact hnd
  | getInvalidInfoOp b => exact hnd
  | watch w' bids =>
      rcases watch_statuses_observers_cases s w' bids with ⟨h1, _⟩ | ⟨h1, _, _⟩
      · show nodupKeys (watch_statuses s w' bids).state.observers
        rw [h1]
        exact hnd
      · show nodupKeys (watch_statuses s w' bids).state.observers
        rw [h1]
        exact nodupKeys_dictSet _ _ _ hnd
  | commitBatch b => exact hnd
  | expireInvalid b => exact hnd

theorem step_obsWF (s : TrackerState) (op : Op) (h : obsWF s.observers) :
    obsWF (step s op).state.observers := by
  cases op with
  | storeUpdated => exact store_updated_loop_obsWF _ _ h
  | txnInvalid t m e =>
      cases hf : s.pending.find? (fun p => decide (t ∈ p.2)) with
      | none =>
          show obsWF (notify_txn_invalid s t m e).state.observers
          rw [notify_txn_invalid_not_found s t m e hf]
          exact h
      | some p =>
          obtain ⟨bid, tids⟩ := p
          show obsWF (notify_txn_invalid s t m e).state.observers
          rw [notify_txn_invalid_found s t m e bid tids hf]
          exact update_observers_obsWF _ _ _ h
  | batchPending batch => exact h
  | getStatusOp b => exact h
  | getStatusesOp bs => exact h
  | getInvalidInfoOp b => exact h
  | watch w' bids =>
      rcases watch_statuses_observers_cases s w' bids with
        ⟨h1, _⟩ | ⟨h1, _, h3⟩
      · show obsWF (watch_statuses s w' bids).state.observers
        rw [h1]
        exact h
      · show obsWF (watch_statuses s w' bids).state.observers
        rw [h1]
        intro p hp
        rcases mem_dictSet _ _ _ p hp with hp | hp
        · rw [hp]
          exact h3
        · exact h p hp
  | commitBatch b => exact h
  | expireInvalid b => exact h

theorem step_finish_bound (s : TrackerState) (op : Op) (w : Nat)
    (hnd : nodupKeys s.observers) :
    finishCount w (step s op).events
      + (if dictContains (step s op).state.observers w = true then 1 else 0)
      ≤ (if isWatchOf w op = true then 1 else 0)
        + (if dictContains s.observers w = true then 1 else 0) := by
  cases op with
  | storeUpdated =>
      have h1 := store_updated_loop_finish_bound s.pending s w hnd
      have h0 : (if isWatchOf w Op.storeUpdated = true then 1 else 0) = 0 :=
        rfl
      show finishCount w (store_updated_loop s s.pending).events
          + (if dictContains
              (store_updated_loop s s.pending).state.observers w = true
              then 1 else 0) ≤ _
      omega
  | txnInvalid t m e =>
      have h0 : (if isWatchOf w (Op.txnInvalid t m e) = true then 1 else 0)
          = 0 := rfl
      cases hf : s.pending.find? (fun p => decide (t ∈ p.2)) with
      | none =>
          have hr : step s (Op.txnInvalid t m e)
              = { state := s, events := [], transitions := [],
                  err := none } := notify_txn_invalid_not_found s t m e hf
          rw [hr]
          have e0 : finishCount w ([] : List Event) = 0 := rfl
          dsimp only
          omega
      | some p =>
          obtain ⟨bid, tids⟩ := p
          have hr := notify_txn_invalid_found s t m e bid tids hf
          have h1 := update_observers_finish_bound s.observers bid
            BatchStatus.INVALID w hnd
          show finishCount w (notify_txn_invalid s t m e).events
              + (if dictContains (notify_txn_invalid s t m e).state.observers
                    w = true then 1 else 0) ≤ _
          rw [hr]
          dsimp only
          omega
  | batchPending batch =>
      have h0 : (if isWatchOf w (Op.batchPending batch) = true then 1 else 0)
          = 0 := rfl
      have e0 : finishCount w ([] : List Event) = 0 := rfl
      show finishCount w ([] : List Event)
          + (if dictContains s.observers w = true then 1 else 0) ≤ _
      omega
  | getStatusOp b =>
      have e0 : finishCount w ([] : List Event) = 0 := rfl
      show finishCount w ([] : List Event)
          + (if dictContains s.observers w = true then 1 else 0) ≤ _
      omega
  | getStatusesOp bs =>
      have e0 : finishCount w ([] : List Event) = 0 := rfl
      show finishCount w ([] : List Event)
          + (if dictContains s.observers w = true then 1 else 0) ≤ _
      omega
  | getInvalidInfoOp b =>
      have e0 : finishCount w ([] : List Event) = 0 := rfl
      show finishCount w ([] : List Event)
          + (if dictContains s.observers w = true then 1 else 0) ≤ _
      omega
  | watch w' bids =>
      rcases watch_statuses_observers_cases s w' bids with
        ⟨h1, h2⟩ | ⟨h1, h2, _⟩
      · show finishCount w (watch_statuses s w' bids).events
            + (if dictContains (watch_statuses s w' bids).state.observers w
                  = true then 1 else 0) ≤ _
        rw [h1, h2, finishCount_cons, isFinishFor_notify_finished]
        have e0 : finishCount w ([] : List Event) = 0 := rfl
        have e1 : (if (false = true) then 1 else 0) = 0 := rfl
        omega
      · show finishCount w (watch_statuses s w' bids).events
            + (if dictContains (watch_statuses s w' bids).state.observers w
                  = true then 1 else 0) ≤ _
        rw [h1, h2]
        have e0 : finishCount w ([] : List Event) = 0 := rfl
        by_cases hww : w' = w
        · subst hww
          have e1 : dictContains
              (dictSet s.observers w' (get_statuses s bids)) w' = true :=
            dictContains_dictSet_self _ _ _
          have e2 : isWatchOf w' (Op.watch w' bids) = true := by
            simp [isWatchOf]
          rw [e1, e2]
          omega
        · have e1 : dictContains
              (dictSet s.observers w' (get_statuses s bids)) w
              = dictContains s.observers w :=
            dictContains_dictSet_ne _ _ _ _ (fun hh => hww hh.symm)
          rw [e1]
          omega
  | commitBatch b =>
      have e0 : finishCount w ([] : List Event) = 0 := rfl
      show finishCount w ([] : List Event)
          + (if dictContains s.observers w = true then 1 else 0) ≤ _
      omega
  | expireInvalid b =>
      have e0 : finishCount w ([] : List Event) = 0 := rfl
      show finishCount w ([] : List Event)
          + (if dictContains s.observers w = true then 1 else 0) ≤ _
      omega

theorem run_finish_bound (ops : List Op) (s : TrackerState) (w : Nat)
    (hnd : nodupKeys s.observers) :
    finishCount w (runEvents s ops)
      + (if dictContains (run s ops).observers w = true then 1 else 0)
      ≤ ops.countP (isWatchOf w)
        + (if dictContains s.observers w = true then 1 else 0) := by
  induction ops generalizing s with
  | nil =>
      show finishCount w ([] : List Event)
          + (if dictContains s.observers w = true then 1 else 0) ≤ _
      have e0 : finishCount w ([] : List Event) = 0 := rfl
      have e1 : List.countP (isWatchOf w) ([] : List Op) = 0 := rfl
      omega
  | cons op rest ih =>
      have hstep := step_finish_bound s op w hnd
      have hnd' := step_observers_nodup s op hnd
      have hrest := ih (step s op).state hnd'
      show finishCount w
          ((step s op).events ++ runEvents (step s op).state rest)
          + (if dictContains (run (step s op).state rest).observers w = true
              then 1 else 0)
        ≤ (op :: rest).countP (isWatchOf w)
          + (if dictContains s.observers w = true then 1 else 0)
      rw [finishCount_append, List.countP_cons]
      omega

theorem run_obsWF (ops : List Op) (s : TrackerState)
    (h : obsWF s.observers) : obsWF (run s ops).observers := by
  induction ops generalizing s with
  | nil => exact h
  | cons op rest ih => exact ih _ (step_obsWF s op h)

theorem run_observers_nodup (ops : List Op) (s : TrackerState)
    (hnd : nodupKeys s.observers) : nodupKeys (run s ops).observers := by
  induction ops generalizing s with
  | nil => exact hnd
  | cons op rest ih => exact ih _ (step_observers_nodup s op hnd)

/-- C6: a watcher's resolution callback fires at most once over a whole run
in which the watcher registers at most once (first conjunct); whenever the
fan-out `_update_observers(bid, st)` delivers a finish callback to watcher w,
w's stored snapshot contained bid, the updated snapshot has no PENDING entry
left, and w is removed from the observers dict synchronously, so no later
transition can reach it (second conjunct); under the registry invariant that
every stored snapshot still has a PENDING entry — which holds in every state
reachable from the initial state (fourth conjunct) — the delivering
transition is exactly the one that overwrites the snapshot's last PENDING
entry: that entry is bid's and every PENDING entry of the snapshot is bid's
(third conjunct). -/
theorem c6_watcher_finished_at_most_once (ops : List Op) (w : Nat)
    (hw : ops.countP (isWatchOf w) ≤ 1) :
    finishCount w (runEvents initState ops) ≤ 1
    ∧ (∀ obs bid st, (obs.map Prod.fst).Nodup →
        0 < finishCount w (update_observers obs bid st).2 →
        dictContains (update_observers obs bid st).1 w = false
        ∧ ∃ snap, dictGet obs w = some snap
            ∧ dictContains snap bid = true
            ∧ has_no_pendings (dictSet snap bid st) = true)
    ∧ (∀ obs bid st snap, obsWF obs → (obs.map Prod.fst).Nodup →
        dictGet obs w = some snap →
        0 < finishCount w (update_observers obs bid st).2 →
        dictGet snap bid = some BatchStatus.PENDING
        ∧ (∀ b stx, dictGet snap b = some stx →
            stx = BatchStatus.PENDING → b = bid))
    ∧ obsWF (run initState ops).observers := by
  refine ⟨?_, ?_, ?_, ?_⟩
  · have h1 := run_finish_bound ops initState w (by simp [initState, nodupKeys])
    have h3 : (if dictContains initState.observers w = true then 1 else 0)
        = 0 := rfl
    omega
  · intro obs bid st hnd hfc
    exact update_observers_finish_chars obs bid st w hnd hfc
  · intro obs bid st snap hWF hnd hget hfc
    exact update_observers_finish_exact obs bid st w snap hWF hnd hget hfc
  · refine run_obsWF ops initState ?_
    intro p hp
    simp [initState] at hp

/-- Witness for C6: a run that admits B, registers watcher 0 on B and then
invalidates B delivers at most one finish callback; and a concrete fan-out
delivering a finish removes the watcher; obtained by applying the theorem. -/
theorem c6_witness :
    finishCount 0 (runEvents initState
      [Op.batchPending (Batch.mk "B" [Transaction.mk "t"]),
       Op.watch 0 ["B"], Op.txnInvalid "t" none none,
       Op.commitBatch "C", Op.storeUpdated]) ≤ 1
    ∧ dictContains (update_observers [(0, [("B", BatchStatus.PENDING)])]
        "B" BatchStatus.INVALID).1 0 = false := by
  constructor
  · exact (c6_watcher_finished_at_most_once
      [Op.batchPending (Batch.mk "B" [Transaction.mk "t"]),
       Op.watch 0 ["B"], Op.txnInvalid "t" none none,
       Op.commitBatch "C", Op.storeUpdated] 0 (by decide)).1
  · exact ((c6_watcher_finished_at_most_once
      [Op.batchPending (Batch.mk "B" [Transaction.mk "t"]),
       Op.watch 0 ["B"], Op.txnInvalid "t" none none,
       Op.commitBatch "C", Op.storeUpdated] 0 (by decide)).2.1
      [(0, [("B", BatchStatus.PENDING)])] "B" BatchStatus.INVALID
      (by decide) (by decide)).1

end BatchTrackerModel
